import Mathlib

/-!
Shallow embedding of the `blob-event` library (`src/lib.rs`): a thread-safe
publish/subscribe primitive.  The Rust code keeps, behind one
`Arc<Mutex<...>>`, a `HashMap<Subscription, Box<dyn EventHandler<Args>>>`
together with a `next_id : usize` counter.

Modelling choices, all taken from the source:
* `Subscription` is a wrapper around an unsigned integer (`usize`), with
  equality and hashing by the wrapped integer (`#[derive(PartialEq, Eq,
  Hash)]` on `Subscription(usize)`); we model the integer as `Nat` (usize
  overflow never occurs in the properties considered, and the spec leaves
  counter overflow explicitly unspecified).
* The `HashMap` is modelled as an association list with unique keys;
  `HashMap::insert` replaces any existing binding, which the model mirrors
  by removing the key before consing the new binding, so reachable maps
  always have pairwise-distinct keys.  `HashMap` iteration order is
  unspecified, matching the spec's "unspecified dispatch order".
* Stored handlers are opaque values of a type parameter `H`
  (`Box<dyn EventHandler<Args>>` in the source).  A call of a handler is
  recorded as a trace event `(id, handler, payload)`; `invoke`'s behaviour
  is the trace it produces.
* `invoke` snapshots the key set under the lock, releases the lock, and then
  re-acquires the lock once per snapshotted id, looking the id up again and
  calling the handler only if it is still present.  Other threads may mutate
  the registry between those lock acquisitions, so the dispatch loop is
  modelled over a list of `(id, registry-state-observed-at-that-step)`
  pairs; the sequential (interference-free) `Event.invoke` instantiates
  every step with the starting state.
-/

set_option autoImplicit false

namespace BlobEvent

/-- `pub struct Subscription(usize)` — a unique identifier for a
subscription, compared and hashed by the wrapped integer. -/
structure Subscription where
  id : Nat
deriving DecidableEq, Repr

/-- `Subscription::new(id)` — wraps a raw integer as a handle. -/
def Subscription.new (id : Nat) : Subscription :=
  ⟨id⟩

variable {H : Type} {Args : Type}

/-- Lookup in the association list modelling the `HashMap`:
`handlers.get(&id)`. -/
def lookupH : List (Subscription × H) → Subscription → Option H
  | [], _ => none
  | (k, v) :: rest, id => if k = id then some v else lookupH rest id

/-- Removal from the association list modelling the `HashMap`:
`handlers.remove(&id)` drops the binding of `id` (reachable maps have
unique keys, so at most one binding exists). -/
def removeH : List (Subscription × H) → Subscription → List (Subscription × H)
  | [], _ => []
  | (k, v) :: rest, id => if k = id then removeH rest id else (k, v) :: removeH rest id

/-- Insertion into the association list modelling the `HashMap`:
`handlers.insert(id, handler)` replaces any existing binding of `id`. -/
def insertH (l : List (Subscription × H)) (id : Subscription) (handler : H) :
    List (Subscription × H) :=
  (id, handler) :: removeH l id

/-- `struct EventHandlers<Args>` — the registry protected by the mutex:
the handler mapping plus the `next_id` counter. -/
structure EventHandlers (H : Type) where
  handlers : List (Subscription × H)
  next_id : Nat

/-- The key set of the mapping (`handlers.keys()`). -/
def EventHandlers.keys (s : EventHandlers H) : List Subscription :=
  s.handlers.map Prod.fst

/-- `handlers.get(&id)` on the registry. -/
def EventHandlers.get (s : EventHandlers H) (id : Subscription) : Option H :=
  lookupH s.handlers id

namespace Event

/-- `Event::new()` — empty mapping, counter at 0. -/
def new : EventHandlers H :=
  { handlers := [], next_id := 0 }

/-- `Event::subscribe(handler)` — registers the handler under the current
counter value, increments the counter, returns the handle. -/
def subscribe (s : EventHandlers H) (handler : H) : EventHandlers H × Subscription :=
  let id := Subscription.new s.next_id
  ({ handlers := insertH s.handlers id handler, next_id := s.next_id + 1 }, id)

/-- `Event::unsubscribe(id)` — removes the binding of `id`, returns whether
an entry was present (`remove(&id).is_some()`). -/
def unsubscribe (s : EventHandlers H) (id : Subscription) : EventHandlers H × Bool :=
  ({ handlers := removeH s.handlers id, next_id := s.next_id }, (s.get id).isSome)

/-- `Event::unsubscribe_all()` — `handlers.clear()`. -/
def unsubscribe_all (s : EventHandlers H) : EventHandlers H :=
  { handlers := [], next_id := s.next_id }

/-- `Event::subscriber_count()` — `handlers.len()`. -/
def subscriber_count (s : EventHandlers H) : Nat :=
  s.handlers.length

end Event

/-- One recorded handler call: which subscription, which handler value, and
the payload it received. -/
abbrev CallEvent (H Args : Type) := Subscription × H × Args

/-- The dispatch loop of `Event::invoke`, with the registry state observed
at each lock re-acquisition made explicit: `steps` pairs each snapshotted
id with the registry state seen when the lock is taken for that id (between
two iterations other threads may have mutated the registry).  For each step
the id is looked up again; if still present the handler is called with (a
clone of) the payload, otherwise the id is silently skipped. -/
def dispatchTrace (v : Args) : List (Subscription × EventHandlers H) → List (CallEvent H Args)
  | [] => []
  | (id, s) :: rest =>
    match s.get id with
    | some h => (id, h, v) :: dispatchTrace v rest
    | none => dispatchTrace v rest

/-- `Event::invoke(args)` without concurrent interference: every step of the
dispatch loop observes the starting registry (a handler cannot mutate its
own registry — doing so would deadlock on the non-reentrant mutex). -/
def Event.invoke (s : EventHandlers H) (v : Args) : List (CallEvent H Args) :=
  dispatchTrace v (s.keys.map (fun id => (id, s)))

/-- The calls delivered to subscription `id` within a trace. -/
def callsTo (id : Subscription) (tr : List (CallEvent H Args)) : List (CallEvent H Args) :=
  tr.filter (fun e => decide (e.1 = id))

/-- Well-formedness of a registry: distinct keys (a `HashMap` property) and
every key below the counter (keys are allocated from the counter). -/
def EventHandlers.Wf (s : EventHandlers H) : Prop :=
  s.keys.Nodup ∧ ∀ p ∈ s.handlers, p.1.id < s.next_id

/-! ### Basic lemmas about the association-list map -/

theorem lookupH_removeH_self (l : List (Subscription × H)) (id : Subscription) :
    lookupH (removeH l id) id = none := by
  induction l with
  | nil => rfl
  | cons p rest ih =>
    obtain ⟨k, v⟩ := p
    by_cases h : k = id
    · simpa [removeH, h] using ih
    · simpa [removeH, lookupH, h] using ih

theorem lookupH_removeH_ne (l : List (Subscription × H)) (id k : Subscription)
    (hne : k ≠ id) : lookupH (removeH l id) k = lookupH l k := by
  induction l with
  | nil => rfl
  | cons p rest ih =>
    obtain ⟨k', v⟩ := p
    by_cases h : k' = id
    · simp [removeH, h, lookupH, ih, Ne.symm hne]
    · by_cases h2 : k' = k <;> simp [removeH, lookupH, h, h2, ih, hne, Ne.symm hne]

theorem removeH_eq_self_of_lookup_none (l : List (Subscription × H)) (id : Subscription)
    (hnone : lookupH l id = none) : removeH l id = l := by
  induction l with
  | nil => rfl
  | cons p rest ih =>
    obtain ⟨k, v⟩ := p
    by_cases h : k = id
    · simp [lookupH, h] at hnone
    · simp only [lookupH, if_neg h] at hnone
      simp [removeH, h, ih hnone]

theorem lookupH_insertH_self (l : List (Subscription × H)) (id : Subscription) (h : H) :
    lookupH (insertH l id h) id = some h := by
  simp [insertH, lookupH]

theorem keys_removeH (l : List (Subscription × H)) (id : Subscription) :
    (removeH l id).map Prod.fst = (l.map Prod.fst).filter (fun k => decide (k ≠ id)) := by
  induction l with
  | nil => rfl
  | cons p rest ih =>
    obtain ⟨k, v⟩ := p
    by_cases h : k = id <;> simp [removeH, h, ih, List.filter]

theorem lookupH_eq_none_of_not_mem_keys (l : List (Subscription × H)) (id : Subscription)
    (hnm : id ∉ l.map Prod.fst) : lookupH l id = none := by
  induction l with
  | nil => rfl
  | cons p rest ih =>
    obtain ⟨k, v⟩ := p
    simp only [List.map_cons, List.mem_cons, not_or] at hnm
    have hk : ¬(k = id) := fun hc => hnm.1 hc.symm
    simp [lookupH, hk, ih hnm.2]

theorem lookupH_isSome_of_mem (l : List (Subscription × H)) (id : Subscription) (h : H)
    (hm : (id, h) ∈ l) : (lookupH l id).isSome = true := by
  induction l with
  | nil => simp at hm
  | cons p rest ih =>
    obtain ⟨k, v⟩ := p
    by_cases hk : k = id
    · simp [lookupH, hk]
    · rcases List.mem_cons.mp hm with heq | hmem
      · exact absurd (congrArg Prod.fst heq).symm hk
      · simpa [lookupH, hk] using ih hmem

theorem mem_removeH (l : List (Subscription × H)) (id : Subscription)
    (p : Subscription × H) (hm : p ∈ removeH l id) : p ∈ l := by
  induction l with
  | nil => simp [removeH] at hm
  | cons q rest ih =>
    obtain ⟨k, v⟩ := q
    by_cases h : k = id
    · simp only [removeH, if_pos h] at hm
      exact List.mem_cons_of_mem _ (ih hm)
    · simp only [removeH, if_neg h, List.mem_cons] at hm
      rcases hm with heq | hmem
      · exact heq ▸ List.mem_cons_self _ _
      · exact List.mem_cons_of_mem _ (ih hmem)

theorem lookupH_eq_some_of_mem_nodup (l : List (Subscription × H)) (id : Subscription)
    (h : H) (hnd : (l.map Prod.fst).Nodup) (hm : (id, h) ∈ l) : lookupH l id = some h := by
  induction l with
  | nil => simp at hm
  | cons q rest ih =>
    obtain ⟨k, v⟩ := q
    simp only [List.map_cons, List.nodup_cons] at hnd
    rcases List.mem_cons.mp hm with heq | hmem
    · injection heq with hk hv
      simp [lookupH, ← hk, hv]
    · have hk : k ≠ id := by
        intro hc
        exact hnd.1 (hc ▸ (List.mem_map_of_mem Prod.fst hmem))
      simp [lookupH, hk, ih hnd.2 hmem]

/-! ### Well-formedness is established by `new` and preserved by every
operation -/

theorem wf_new : (Event.new : EventHandlers H).Wf := by
  constructor
  · simp [Event.new, EventHandlers.keys]
  · intro p hp
    simp [Event.new] at hp

theorem wf_subscribe (s : EventHandlers H) (h : H) (hwf : s.Wf) :
    (Event.subscribe s h).1.Wf := by
  obtain ⟨hnd, hlt⟩ := hwf
  constructor
  · simp only [Event.subscribe, EventHandlers.keys, insertH, List.map_cons, List.nodup_cons,
      keys_removeH]
    refine ⟨?_, hnd.filter _⟩
    intro hc
    have := List.of_mem_filter hc
    simp [Subscription.new] at this
  · intro p hp
    simp only [Event.subscribe, insertH, List.mem_cons] at hp
    rcases hp with heq | hmem
    · simp [heq, Subscription.new, Event.subscribe]
    · exact Nat.lt_succ_of_lt (hlt p (mem_removeH _ _ _ hmem))

theorem wf_unsubscribe (s : EventHandlers H) (id : Subscription) (hwf : s.Wf) :
    (Event.unsubscribe s id).1.Wf := by
  obtain ⟨hnd, hlt⟩ := hwf
  constructor
  · simpa [Event.unsubscribe, EventHandlers.keys, keys_removeH] using hnd.filter _
  · intro p hp
    exact hlt p (mem_removeH _ _ _ hp)

theorem wf_unsubscribe_all (s : EventHandlers H) :
    (Event.unsubscribe_all s).Wf := by
  constructor
  · simp [Event.unsubscribe_all, EventHandlers.keys]
  · intro p hp
    simp [Event.unsubscribe_all] at hp

/-- Under well-formedness the freshly allocated key is not yet in the map,
so the `insert` of `subscribe` is a plain cons. -/
theorem subscribe_handlers_of_wf (s : EventHandlers H) (h : H) (hwf : s.Wf) :
    (Event.subscribe s h).1.handlers = (Subscription.new s.next_id, h) :: s.handlers := by
  obtain ⟨_, hlt⟩ := hwf
  have hnm : Subscription.new s.next_id ∉ s.handlers.map Prod.fst := by
    intro hc
    obtain ⟨p, hp, hfst⟩ := List.mem_map.mp hc
    have := hlt p hp
    rw [hfst] at this
    simp [Subscription.new] at this
  simp [Event.subscribe, insertH,
    removeH_eq_self_of_lookup_none _ _ (lookupH_eq_none_of_not_mem_keys _ _ hnm)]

/-! ### Dispatch-trace lemmas -/

theorem dispatchTrace_payload (v : Args) (steps : List (Subscription × EventHandlers H))
    (e : CallEvent H Args) (he : e ∈ dispatchTrace v steps) : e.2.2 = v := by
  induction steps with
  | nil => simp [dispatchTrace] at he
  | cons q rest ih =>
    obtain ⟨id, s⟩ := q
    simp only [dispatchTrace] at he
    rcases hg : s.get id with _ | h
    · rw [hg] at he
      exact ih he
    · rw [hg] at he
      rcases List.mem_cons.mp he with heq | hmem
      · simp [heq]
      · exact ih hmem

theorem dispatchTrace_id_mem (v : Args) (steps : List (Subscription × EventHandlers H))
    (e : CallEvent H Args) (he : e ∈ dispatchTrace v steps) : e.1 ∈ steps.map Prod.fst := by
  induction steps with
  | nil => simp [dispatchTrace] at he
  | cons q rest ih =>
    obtain ⟨id, s⟩ := q
    simp only [dispatchTrace] at he
    rcases hg : s.get id with _ | h
    · rw [hg] at he
      exact List.mem_cons_of_mem _ (ih he)
    · rw [hg] at he
      rcases List.mem_cons.mp he with heq | hmem
      · simp [heq]
      · exact List.mem_cons_of_mem _ (ih hmem)

theorem callsTo_eq_nil_of_not_mem (v : Args) (steps : List (Subscription × EventHandlers H))
    (id : Subscription) (hnm : id ∉ steps.map Prod.fst) :
    callsTo id (dispatchTrace v steps) = [] := by
  rw [callsTo, List.filter_eq_nil_iff]
  intro e he
  simp only [decide_eq_true_eq]
  intro hc
  exact hnm (hc ▸ dispatchTrace_id_mem v steps e he)

theorem callsTo_cons (id : Subscription) (e : CallEvent H Args)
    (tr : List (CallEvent H Args)) :
    callsTo id (e :: tr) = if e.1 = id then e :: callsTo id tr else callsTo id tr := by
  rw [callsTo, List.filter_cons]
  by_cases h : e.1 = id <;> simp [h, callsTo]

theorem callsTo_dispatchTrace_present (v : Args)
    (steps : List (Subscription × EventHandlers H))
    (hnd : (steps.map Prod.fst).Nodup) (id : Subscription) (st : EventHandlers H)
    (h : H) (hmem : (id, st) ∈ steps) (hget : st.get id = some h) :
    callsTo id (dispatchTrace v steps) = [(id, h, v)] := by
  induction steps with
  | nil => simp at hmem
  | cons q rest ih =>
    obtain ⟨id₀, st₀⟩ := q
    simp only [List.map_cons, List.nodup_cons] at hnd
    rcases List.mem_cons.mp hmem with heq | hmemr
    · injection heq with hid hst
      subst hid
      subst hst
      simp only [dispatchTrace, hget]
      rw [callsTo_cons, if_pos rfl, callsTo_eq_nil_of_not_mem v rest id hnd.1]
    · have hne : id₀ ≠ id := by
        intro hc
        exact hnd.1 (hc.symm ▸ List.mem_map_of_mem Prod.fst hmemr)
      simp only [dispatchTrace]
      rcases hg : st₀.get id₀ with _ | h₀
      · exact ih hnd.2 hmemr
      · rw [callsTo_cons, if_neg hne]
        exact ih hnd.2 hmemr

theorem callsTo_dispatchTrace_absent (v : Args)
    (steps : List (Subscription × EventHandlers H))
    (hnd : (steps.map Prod.fst).Nodup) (id : Subscription) (st : EventHandlers H)
    (hmem : (id, st) ∈ steps) (hget : st.get id = none) :
    callsTo id (dispatchTrace v steps) = [] := by
  induction steps with
  | nil => simp at hmem
  | cons q rest ih =>
    obtain ⟨id₀, st₀⟩ := q
    simp only [List.map_cons, List.nodup_cons] at hnd
    rcases List.mem_cons.mp hmem with heq | hmemr
    · injection heq with hid hst
      subst hid
      subst hst
      simp only [dispatchTrace, hget]
      exact callsTo_eq_nil_of_not_mem v rest id hnd.1
    · have hne : id₀ ≠ id := by
        intro hc
        exact hnd.1 (hc.symm ▸ List.mem_map_of_mem Prod.fst hmemr)
      simp only [dispatchTrace]
      rcases hg : st₀.get id₀ with _ | h₀
      · exact ih hnd.2 hmemr
      · rw [callsTo_cons, if_neg hne]
        exact ih hnd.2 hmemr

/-! ### Sequences of registry-mutating operations

`Op` abstracts one call of a mutating public operation; `run` executes a
sequence of them from a starting registry state, and `issued` collects the
handles the `subscribe` calls of the sequence returned. -/

/-- One registry-mutating public operation. -/
inductive Op (H : Type) where
  | sub (handler : H)
  | unsub (id : Subscription)
  | unsubAll

/-- Apply one operation to the registry (dropping the returned value). -/
def stepOp (s : EventHandlers H) : Op H → EventHandlers H
  | .sub handler => (Event.subscribe s handler).1
  | .unsub id => (Event.unsubscribe s id).1
  | .unsubAll => Event.unsubscribe_all s

/-- Run a sequence of operations. -/
def run (s : EventHandlers H) : List (Op H) → EventHandlers H
  | [] => s
  | op :: rest => run (stepOp s op) rest

/-- The handles returned by the `subscribe` calls of the sequence, in
order. -/
def issued (s : EventHandlers H) : List (Op H) → List Subscription
  | [] => []
  | .sub handler :: rest =>
      (Event.subscribe s handler).2 :: issued (Event.subscribe s handler).1 rest
  | .unsub id :: rest => issued (Event.unsubscribe s id).1 rest
  | .unsubAll :: rest => issued (Event.unsubscribe_all s) rest

/-- The number of `subscribe` operations in a sequence. -/
def numSubs : List (Op H) → Nat
  | [] => 0
  | .sub _ :: rest => numSubs rest + 1
  | .unsub _ :: rest => numSubs rest
  | .unsubAll :: rest => numSubs rest

theorem stepOp_next_id (s : EventHandlers H) (op : Op H) :
    s.next_id ≤ (stepOp s op).next_id := by
  cases op <;> simp [stepOp, Event.subscribe, Event.unsubscribe, Event.unsubscribe_all,
    Nat.le_succ]

theorem run_next_id (ops : List (Op H)) (s : EventHandlers H) :
    (run s ops).next_id = s.next_id + numSubs ops := by
  induction ops generalizing s with
  | nil => simp [run, numSubs]
  | cons op rest ih =>
    cases op with
    | sub handler =>
      rw [run, ih, numSubs]
      simp [stepOp, Event.subscribe]
      omega
    | unsub id =>
      rw [run, ih, numSubs]
      simp [stepOp, Event.unsubscribe]
    | unsubAll =>
      rw [run, ih, numSubs]
      simp [stepOp, Event.unsubscribe_all]

theorem run_next_id_mono (ops : List (Op H)) (s : EventHandlers H) :
    s.next_id ≤ (run s ops).next_id := by
  rw [run_next_id]
  exact Nat.le_add_right _ _

theorem issued_lb (ops : List (Op H)) (s : EventHandlers H) (x : Subscription)
    (hx : x ∈ issued s ops) : s.next_id ≤ x.id := by
  induction ops generalizing s with
  | nil => simp [issued] at hx
  | cons op rest ih =>
    cases op with
    | sub handler =>
      rcases List.mem_cons.mp hx with heq | hmem
      · simp [heq, Event.subscribe, Subscription.new]
      · have := ih (Event.subscribe s handler).1 hmem
        simp only [Event.subscribe] at this
        omega
    | unsub id =>
      have := ih (Event.unsubscribe s id).1 hx
      simpa [Event.unsubscribe] using this
    | unsubAll =>
      have := ih (Event.unsubscribe_all s) hx
      simpa [Event.unsubscribe_all] using this

theorem issued_pairwise (ops : List (Op H)) (s : EventHandlers H) :
    (issued s ops).Pairwise (fun a b => a.id < b.id) := by
  induction ops generalizing s with
  | nil => simp [issued]
  | cons op rest ih =>
    cases op with
    | sub handler =>
      rw [issued]
      refine List.Pairwise.cons ?_ (ih _)
      intro y hy
      have := issued_lb rest (Event.subscribe s handler).1 y hy
      simp only [Event.subscribe, Subscription.new] at this ⊢
      omega
    | unsub id => exact ih _
    | unsubAll => exact ih _

theorem wf_stepOp (s : EventHandlers H) (op : Op H) (hwf : s.Wf) : (stepOp s op).Wf := by
  cases op with
  | sub handler => exact wf_subscribe s handler hwf
  | unsub id => exact wf_unsubscribe s id hwf
  | unsubAll => exact wf_unsubscribe_all s

theorem wf_run (ops : List (Op H)) (s : EventHandlers H) (hwf : s.Wf) : (run s ops).Wf := by
  induction ops generalizing s with
  | nil => exact hwf
  | cons op rest ih => exact ih _ (wf_stepOp s op hwf)

/-- Modelled from the spec: the list of "currently-registered
(not-yet-removed) handles" after a sequence of operations, maintained
directly from the spec's words — `subscribe` appends the handle made from
the current counter value and bumps the counter, `unsubscribe` removes that
one handle, `unsubscribe_all` clears the list.  Used only as the
specification side of the refinement for the `count()` invariant. -/
def specLive (cur : List Subscription) (c : Nat) : List (Op H) → List Subscription
  | [] => cur
  | .sub _ :: rest => specLive (cur ++ [Subscription.new c]) (c + 1) rest
  | .unsub id :: rest => specLive (cur.filter (fun x => decide (x ≠ id))) c rest
  | .unsubAll :: rest => specLive [] c rest

theorem keys_run_perm_specLive (ops : List (Op H)) (s : EventHandlers H)
    (cur : List Subscription) (hwf : s.Wf) (hperm : s.keys.Perm cur) :
    ((run s ops).keys).Perm (specLive cur s.next_id ops) := by
  induction ops generalizing s cur with
  | nil => exact hperm
  | cons op rest ih =>
    cases op with
    | sub handler =>
      rw [run, specLive]
      have hkeys : (stepOp s (Op.sub handler)).keys =
          Subscription.new s.next_id :: s.keys := by
        simp [stepOp, EventHandlers.keys, subscribe_handlers_of_wf s handler hwf]
      have hnext : (stepOp s (Op.sub handler)).next_id = s.next_id + 1 := by
        simp [stepOp, Event.subscribe]
      have hperm' : (stepOp s (Op.sub handler)).keys.Perm
          (cur ++ [Subscription.new s.next_id]) := by
        rw [hkeys]
        exact ((hperm.cons _).trans (List.perm_append_singleton _ _).symm)
      have := ih (stepOp s (Op.sub handler)) (cur ++ [Subscription.new s.next_id])
        (wf_stepOp s _ hwf) hperm'
      rwa [hnext] at this
    | unsub id =>
      rw [run, specLive]
      have hkeys : (stepOp s (Op.unsub id)).keys =
          s.keys.filter (fun k => decide (k ≠ id)) := by
        simp [stepOp, EventHandlers.keys, Event.unsubscribe, keys_removeH]
      have hnext : (stepOp s (Op.unsub id)).next_id = s.next_id := by
        simp [stepOp, Event.unsubscribe]
      have hperm' : (stepOp s (Op.unsub id)).keys.Perm
          (cur.filter (fun x => decide (x ≠ id))) := by
        rw [hkeys]
        exact hperm.filter _
      have := ih (stepOp s (Op.unsub id)) _ (wf_stepOp s _ hwf) hperm'
      rwa [hnext] at this
    | unsubAll =>
      rw [run, specLive]
      have hnext : (stepOp s Op.unsubAll).next_id = s.next_id := by
        simp [stepOp, Event.unsubscribe_all]
      have hperm' : (stepOp s Op.unsubAll).keys.Perm ([] : List Subscription) := by
        simp [stepOp, Event.unsubscribe_all, EventHandlers.keys]
      have := ih (stepOp s Op.unsubAll) [] (wf_stepOp s _ hwf) hperm'
      rwa [hnext] at this

/-! ### Claim theorems -/

/-- Claim C3: within the lifetime of one registry, no two `subscribe` calls
return the same handle and handles are never reused even after removal;
`subscribe` registers the handler under the current counter value,
increments the counter by 1, and returns that handle; the counter starts at
0, never decrements, and is never reset by removals (the final counter is
exactly the number of `subscribe` operations performed, whatever removals
interleave). -/
theorem subscribe_handles_unique (ops : List (Op H)) (s : EventHandlers H) (handler : H) :
    (issued (Event.new : EventHandlers H) ops).Pairwise (fun a b => a.id < b.id) ∧
    (issued (Event.new : EventHandlers H) ops).Nodup ∧
    (run (Event.new : EventHandlers H) ops).next_id = numSubs ops ∧
    s.next_id ≤ (run s ops).next_id ∧
    Event.subscribe s handler =
      ({ handlers := insertH s.handlers (Subscription.new s.next_id) handler,
         next_id := s.next_id + 1 }, Subscription.new s.next_id) ∧
    (Event.new : EventHandlers H).next_id = 0 := by
  refine ⟨issued_pairwise ops _, ?_, ?_, run_next_id_mono ops s, rfl, rfl⟩
  · exact (issued_pairwise ops _).imp (fun hlt heq => absurd (heq ▸ hlt) (lt_irrefl _))
  · rw [run_next_id]
    simp [Event.new]

/-- Claim C6: at every quiescent point — i.e. after any sequence of
`subscribe`/`unsubscribe`/`unsubscribe_all` operations — `count()` equals
the size of the handler mapping, which equals the number of
currently-registered, not-yet-removed handlers (computed on the
specification side by `specLive`). -/
theorem count_eq_registered (ops : List (Op H)) (s : EventHandlers H) :
    Event.subscriber_count s = s.handlers.length ∧
    ((run (Event.new : EventHandlers H) ops).keys).Perm (specLive [] 0 ops) ∧
    Event.subscriber_count (run (Event.new : EventHandlers H) ops) =
      (specLive [] 0 ops).length := by
  have hperm : ((run (Event.new : EventHandlers H) ops).keys).Perm (specLive [] 0 ops) :=
    keys_run_perm_specLive ops Event.new [] wf_new (by simp [Event.new, EventHandlers.keys])
  refine ⟨rfl, hperm, ?_⟩
  have := hperm.length_eq
  simpa [EventHandlers.keys, Event.subscriber_count] using this

/-- Claim C7: after `unsubscribe_all()` returns, the subscriber count is 0
and a subsequent `invoke(v)` calls no handler (its call trace is empty). -/
theorem unsubscribe_all_then_invoke_calls_nothing (s : EventHandlers H) (v : Args) :
    Event.subscriber_count (Event.unsubscribe_all s) = 0 ∧
    Event.invoke (Event.unsubscribe_all s) v = [] :=
  ⟨rfl, rfl⟩

/-- Claim C1: for a dispatch that began at well-formed registry state `s₀`
(so the snapshot is `s₀.keys`), with arbitrary registry states observed at
each subsequent lock re-acquisition (`steps`), every call in the trace
carries a value equal to `v`; a snapshotted handler still present at its
turn is called exactly once; a handler removed between the start of
dispatch and its own turn is silently skipped (no call, and the dispatch
is a total function — no error); and in the interference-free case every
handler registered at the moment dispatch began is called exactly once
with `v`. -/
theorem invoke_delivers_to_snapshot (s₀ : EventHandlers H) (v : Args)
    (steps : List (Subscription × EventHandlers H))
    (hwf : s₀.Wf) (hsnap : steps.map Prod.fst = s₀.keys) :
    (∀ e ∈ dispatchTrace v steps, e.2.2 = v) ∧
    (∀ id st h, (id, st) ∈ steps → st.get id = some h →
      callsTo id (dispatchTrace v steps) = [(id, h, v)]) ∧
    (∀ id st, (id, st) ∈ steps → st.get id = none →
      callsTo id (dispatchTrace v steps) = []) ∧
    (∀ id h, (id, h) ∈ s₀.handlers → callsTo id (Event.invoke s₀ v) = [(id, h, v)]) := by
  have hnd : (steps.map Prod.fst).Nodup := hsnap ▸ hwf.1
  refine ⟨fun e he => dispatchTrace_payload v steps e he, ?_, ?_, ?_⟩
  · intro id st h hmem hget
    exact callsTo_dispatchTrace_present v steps hnd id st h hmem hget
  · intro id st hmem hget
    exact callsTo_dispatchTrace_absent v steps hnd id st hmem hget
  · intro id h hmem
    have hkeys : (s₀.keys.map (fun i => (i, s₀))).map Prod.fst = s₀.keys := by
      induction s₀.keys with
      | nil => rfl
      | cons a l ihl => simp only [List.map_cons, ihl]
    have hnd₀ : ((s₀.keys.map (fun i => (i, s₀))).map Prod.fst).Nodup := by
      rw [hkeys]
      exact hwf.1
    refine callsTo_dispatchTrace_present v _ hnd₀ id s₀ h ?_ ?_
    · exact List.mem_map_of_mem _ (List.mem_map_of_mem Prod.fst hmem)
    · exact lookupH_eq_some_of_mem_nodup s₀.handlers id h hwf.1 hmem

/-- A concrete two-handler registry used by witnesses. -/
def wReg2 : EventHandlers Nat :=
  { handlers := [(Subscription.new 0, 10), (Subscription.new 1, 11)], next_id := 2 }

/-- `wReg2` after handler 1 has been removed by another thread. -/
def wReg1 : EventHandlers Nat :=
  { handlers := [(Subscription.new 0, 10)], next_id := 2 }

/-- A dispatch schedule over `wReg2`'s snapshot in which handler 1 is
removed before its turn. -/
def wSteps : List (Subscription × EventHandlers Nat) :=
  [(Subscription.new 0, wReg2), (Subscription.new 1, wReg1)]

/-- Witness for `invoke_delivers_to_snapshot`: a concrete two-handler
registry, where the second handler is removed before its turn and only the
first is called. -/
theorem invoke_delivers_to_snapshot_witness :
    callsTo (Subscription.new 0) (dispatchTrace 7 wSteps) = [(Subscription.new 0, 10, 7)] ∧
    callsTo (Subscription.new 1) (dispatchTrace 7 wSteps) = [] := by
  have hwf : wReg2.Wf := ⟨by decide, by decide⟩
  have hsnap : wSteps.map Prod.fst = wReg2.keys := by decide
  have h := invoke_delivers_to_snapshot wReg2 7 wSteps hwf hsnap
  refine ⟨?_, ?_⟩
  · exact h.2.1 (Subscription.new 0) wReg2 10 (by simp [wSteps]) (by decide)
  · exact h.2.2.1 (Subscription.new 1) wReg1 (by simp [wSteps]) (by decide)

/-- Claim C10: during a single `invoke`, only handlers whose handles were in
the snapshot taken at dispatch start can be called; a handler subscribed
after the snapshot was taken (on any registry state whose counter is at
least the snapshot state's counter — ids never decrease and are never
reused) receives a freshly allocated id outside the snapshot, so it is
never called in that dispatch. -/
theorem late_subscriber_not_called (s₀ : EventHandlers H) (v : Args)
    (steps : List (Subscription × EventHandlers H))
    (hwf : s₀.Wf) (hsnap : steps.map Prod.fst = s₀.keys)
    (s₁ : EventHandlers H) (hle : s₀.next_id ≤ s₁.next_id) (handler : H) :
    callsTo (Event.subscribe s₁ handler).2 (dispatchTrace v steps) = [] := by
  refine callsTo_eq_nil_of_not_mem v steps _ ?_
  rw [hsnap]
  intro hc
  obtain ⟨p, hp, hfst⟩ := List.mem_map.mp hc
  have hlt := hwf.2 p hp
  rw [hfst] at hlt
  simp only [Event.subscribe, Subscription.new] at hlt
  omega

/-- Witness for `late_subscriber_not_called`: a handler subscribed after
the snapshot of the two-handler registry was taken gets no call. -/
theorem late_subscriber_not_called_witness :
    callsTo (Event.subscribe wReg2 99).2
      (dispatchTrace 7 (wReg2.keys.map (fun id => (id, wReg2)))) = [] := by
  have hwf : wReg2.Wf := ⟨by decide, by decide⟩
  have hsnap : (wReg2.keys.map (fun id => (id, wReg2))).map Prod.fst = wReg2.keys := by
    decide
  exact late_subscriber_not_called wReg2 7 _ hwf hsnap wReg2 (Nat.le_refl _) 99

/-- Claim C2: `unsubscribe(h)` returns true iff an entry for `h` is
present (and then removes exactly that entry); a removal leaves no entry
for `h` and every other entry untouched; when it returns false the registry
is unchanged; it never touches the counter; a second call with the same
handle returns false; and the first call after a registration with the
handle `subscribe` returned succeeds. -/
theorem unsubscribe_removes_iff_present (s : EventHandlers H) (handler : H)
    (id : Subscription) :
    ((Event.unsubscribe s id).2 = true ↔ (s.get id).isSome = true) ∧
    ((s.get id).isSome = false → Event.unsubscribe s id = (s, false)) ∧
    ((Event.unsubscribe s id).1.get id = none) ∧
    (∀ k, k ≠ id → (Event.unsubscribe s id).1.get k = s.get k) ∧
    ((Event.unsubscribe s id).1.next_id = s.next_id) ∧
    ((Event.unsubscribe (Event.unsubscribe s id).1 id).2 = false) ∧
    ((Event.unsubscribe (Event.subscribe s handler).1
        (Event.subscribe s handler).2).2 = true) := by
  refine ⟨Iff.rfl, ?_, ?_, ?_, rfl, ?_, ?_⟩
  · intro hnone
    have hg : s.get id = none := by
      cases hv : s.get id
      · rfl
      · rw [hv] at hnone
        simp at hnone
    simp only [Event.unsubscribe, hg, Option.isSome_none,
      removeH_eq_self_of_lookup_none s.handlers id hg]
  · exact lookupH_removeH_self s.handlers id
  · intro k hk
    exact lookupH_removeH_ne s.handlers id k hk
  · simp only [Event.unsubscribe, EventHandlers.get, lookupH_removeH_self,
      Option.isSome_none]
  · simp only [Event.unsubscribe, EventHandlers.get, Event.subscribe,
      lookupH_insertH_self, Option.isSome_some]

/-- Witness for `unsubscribe_removes_iff_present`: on the concrete registry
`wReg2`, removing an unknown handle is a no-op returning false, and a
removal leaves unrelated entries unchanged. -/
theorem unsubscribe_removes_iff_present_witness :
    Event.unsubscribe wReg2 (Subscription.new 5) = (wReg2, false) ∧
    (Event.unsubscribe wReg2 (Subscription.new 0)).1.get (Subscription.new 1) =
      wReg2.get (Subscription.new 1) :=
  ⟨(unsubscribe_removes_iff_present wReg2 10 (Subscription.new 5)).2.1 (by decide),
   (unsubscribe_removes_iff_present wReg2 10 (Subscription.new 0)).2.2.2.1
     (Subscription.new 1) (by decide)⟩

/-- Claim C9: `Subscription::new(i)` builds a handle equal (hence
hash-equal, hashing being by the wrapped integer) to the one returned by
the `subscribe` call that ran when the counter value was `i`, and if that
registration is still live, unsubscribing with the fabricated handle
returns true and removes the real handler. -/
theorem fabricated_handle_indistinguishable (s : EventHandlers H) (handler : H)
    (i : Nat) :
    ((Event.subscribe s handler).2 = Subscription.new s.next_id) ∧
    ((Subscription.new i).id = i) ∧
    (s.next_id = i → (Event.subscribe s handler).2 = Subscription.new i) ∧
    ((s.get (Subscription.new i)).isSome = true →
      (Event.unsubscribe s (Subscription.new i)).2 = true ∧
      (Event.unsubscribe s (Subscription.new i)).1.get (Subscription.new i) = none) := by
  refine ⟨rfl, rfl, ?_, ?_⟩
  · intro h
    rw [← h]
    rfl
  · intro hlive
    exact ⟨hlive, lookupH_removeH_self s.handlers (Subscription.new i)⟩

/-- Witness for `fabricated_handle_indistinguishable`: in `wReg2`,
`Subscription::new(0)` removes the real registration 0, and subscribing at
counter value 2 returns `Subscription::new(2)`. -/
theorem fabricated_handle_indistinguishable_witness :
    ((Event.unsubscribe wReg2 (Subscription.new 0)).2 = true ∧
      (Event.unsubscribe wReg2 (Subscription.new 0)).1.get (Subscription.new 0) = none) ∧
    (Event.subscribe wReg2 99).2 = Subscription.new 2 :=
  ⟨(fabricated_handle_indistinguishable wReg2 99 0).2.2.2 (by decide),
   (fabricated_handle_indistinguishable wReg2 99 2).2.2.1 (by decide)⟩

/-- Registry A of the C4 counterexample: one subscription, handle 0. -/
def regA : EventHandlers Nat :=
  (Event.subscribe (Event.new : EventHandlers Nat) 1).1

/-- The handle registry A issued (`Subscription(0)`). -/
def handleA : Subscription :=
  (Event.subscribe (Event.new : EventHandlers Nat) 1).2

/-- Registry B of the C4 counterexample, built independently of A: one
subscription, which — both counters having started at 0 — also got
handle 0. -/
def regB : EventHandlers Nat :=
  (Event.subscribe (Event.new : EventHandlers Nat) 2).1

/-- Claim C4 counterexample: `handleA` was issued by registry A, yet
presenting it to the distinct registry B is NOT a harmless no-op: the
lookup hits B's own registration 0, `unsubscribe` returns true, and B's
handler is removed (count drops from 1 to 0). -/
theorem cross_registry_handle_not_noop :
    handleA = (Event.subscribe (Event.new : EventHandlers Nat) 1).2 ∧
    (Event.unsubscribe regB handleA).2 = true ∧
    Event.subscriber_count regB = 1 ∧
    Event.subscriber_count (Event.unsubscribe regB handleA).1 = 0 := by
  decide

/-- Claim C4 (amended): presenting a handle `h` obtained from one registry
to a different registry `b` never raises an error, and it is a harmless
no-op (lookup miss, returns false, removes nothing, changes nothing in
`b`) exactly when `b` has no live registration under the same underlying
integer; if `b` does have one, that registration is removed and true is
returned. -/
theorem cross_registry_handle_noop_iff_miss (b : EventHandlers H) (h : Subscription) :
    (b.get h = none → Event.unsubscribe b h = (b, false)) ∧
    ((b.get h).isSome = true →
      (Event.unsubscribe b h).2 = true ∧ (Event.unsubscribe b h).1.get h = none) := by
  refine ⟨?_, ?_⟩
  · intro hnone
    simp only [Event.unsubscribe, hnone, Option.isSome_none,
      removeH_eq_self_of_lookup_none b.handlers h hnone]
  · intro hlive
    exact ⟨hlive, lookupH_removeH_self b.handlers h⟩

/-- Witness for `cross_registry_handle_noop_iff_miss`: registry B with its
handler already removed really treats A's handle as a lookup miss, while
fresh B does not. -/
theorem cross_registry_handle_noop_iff_miss_witness :
    Event.unsubscribe (Event.unsubscribe_all regB) handleA =
      (Event.unsubscribe_all regB, false) ∧
    (Event.unsubscribe regB handleA).2 = true :=
  ⟨(cross_registry_handle_noop_iff_miss (Event.unsubscribe_all regB) handleA).1
      (by decide),
   ((cross_registry_handle_noop_iff_miss regB handleA).2 (by decide)).1⟩

/-! ### The world model: `Arc` sharing between clones

An `Event<Args>` value is an `Arc<Mutex<EventHandlers<Args>>>`; distinct
`Event::new()` calls allocate distinct registries, while `Clone` only
copies the pointer.  The heap of live registries is modelled as a list and
an `Event` value as the index of the allocation its `Arc` points to. -/

/-- The heap of registries. -/
abbrev World (H : Type) := List (EventHandlers H)

/-- The registry an event handle points to. -/
def getReg (w : World H) (e : Nat) : EventHandlers H :=
  w.getD e Event.new

/-- `Event::new()` at the world level: allocates a fresh empty registry. -/
def newW (w : World H) : World H × Nat :=
  (w ++ [Event.new], w.length)

/-- `impl Clone for Event` — `Arc::clone(&self.handlers)`: the clone points
at the very same allocation; nothing is copied and the heap is unchanged. -/
def cloneW (w : World H) (e : Nat) : World H × Nat :=
  (w, e)

/-- `subscribe` through an event handle. -/
def subscribeW (w : World H) (e : Nat) (handler : H) : World H × Subscription :=
  (w.set e (Event.subscribe (getReg w e) handler).1,
   (Event.subscribe (getReg w e) handler).2)

/-- `unsubscribe` through an event handle. -/
def unsubscribeW (w : World H) (e : Nat) (id : Subscription) : World H × Bool :=
  (w.set e (Event.unsubscribe (getReg w e) id).1,
   (Event.unsubscribe (getReg w e) id).2)

/-- `unsubscribe_all` through an event handle. -/
def unsubscribeAllW (w : World H) (e : Nat) : World H :=
  w.set e (Event.unsubscribe_all (getReg w e))

/-- `subscriber_count` through an event handle. -/
def countW (w : World H) (e : Nat) : Nat :=
  Event.subscriber_count (getReg w e)

/-- Claim C8: `clone()` yields a second handle to the same underlying
registry, not a copy of its contents: cloning leaves the heap unchanged,
the clone dereferences to the very same registry, every mutation
(`subscribe`, `unsubscribe`, `unsubscribe_all`) performed through the clone
is literally the same heap mutation as through the original — so it is
observed identically through both — and both handles always observe the
same subscriber set and count. -/
theorem clone_shares_registry (w : World H) (e : Nat) (handler : H) (id : Subscription) :
    (cloneW w e).1 = w ∧
    getReg (cloneW w e).1 (cloneW w e).2 = getReg w e ∧
    subscribeW w (cloneW w e).2 handler = subscribeW w e handler ∧
    unsubscribeW w (cloneW w e).2 id = unsubscribeW w e id ∧
    unsubscribeAllW w (cloneW w e).2 = unsubscribeAllW w e ∧
    countW (subscribeW w (cloneW w e).2 handler).1 e =
      countW (subscribeW w e handler).1 (cloneW w e).2 ∧
    (getReg (unsubscribeAllW w (cloneW w e).2) e).keys =
      (getReg (unsubscribeAllW w e) (cloneW w e).2).keys :=
  ⟨rfl, rfl, rfl, rfl, rfl, rfl, rfl⟩

/-! ### Lock poisoning

Every operation of the source begins with `self.handlers.lock().unwrap()`.
Per the documented semantics of `std::sync::Mutex` (external to this
crate), a panic raised while a lock guard is held marks the mutex as
poisoned, after which `lock()` returns `Err` — so the `unwrap()` in every
operation panics.  During `invoke` the handler is called while the guard is
held, so an uncontrolled fault (panic) in a handler poisons the mutex.  We
model the poison flag explicitly and a panic as `Except.error ()`. -/

/-- A bus together with the poison flag of its mutex. -/
structure PoisonEvent (H : Type) where
  st : EventHandlers H
  poisoned : Bool

/-- Whether the dispatch loop of `invoke` hits a faulting handler:
`fails h v` tells whether handler `h` raises an uncontrolled fault when
called with `v`; the loop stops at the first faulting handler. -/
def dispatchFaults (fails : H → Args → Bool) (v : Args) (st : EventHandlers H) :
    List Subscription → Bool
  | [] => false
  | id :: rest =>
    match st.get id with
    | some h => if fails h v then true else dispatchFaults fails v st rest
    | none => dispatchFaults fails v st rest

/-- `subscribe` on a poisonable bus: `lock().unwrap()` panics iff the mutex
is poisoned; otherwise the normal operation runs. -/
def PoisonEvent.subscribeP (e : PoisonEvent H) (handler : H) :
    PoisonEvent H × Except Unit Subscription :=
  if e.poisoned then (e, Except.error ()) else
    (⟨(Event.subscribe e.st handler).1, false⟩,
     Except.ok (Event.subscribe e.st handler).2)

/-- `unsubscribe` on a poisonable bus. -/
def PoisonEvent.unsubscribeP (e : PoisonEvent H) (id : Subscription) :
    PoisonEvent H × Except Unit Bool :=
  if e.poisoned then (e, Except.error ()) else
    (⟨(Event.unsubscribe e.st id).1, false⟩, Except.ok (Event.unsubscribe e.st id).2)

/-- `unsubscribe_all` on a poisonable bus. -/
def PoisonEvent.unsubscribeAllP (e : PoisonEvent H) :
    PoisonEvent H × Except Unit Unit :=
  if e.poisoned then (e, Except.error ()) else
    (⟨Event.unsubscribe_all e.st, false⟩, Except.ok ())

/-- `subscriber_count` on a poisonable bus. -/
def PoisonEvent.countP (e : PoisonEvent H) : PoisonEvent H × Except Unit Nat :=
  if e.poisoned then (e, Except.error ()) else
    (e, Except.ok (Event.subscriber_count e.st))

/-- `invoke` on a poisonable bus: panics immediately if the mutex is
already poisoned; otherwise, if some handler of the dispatch faults while
the lock is held, the fault propagates to the caller and the mutex becomes
poisoned. -/
def PoisonEvent.invokeP (fails : H → Args → Bool) (e : PoisonEvent H) (v : Args) :
    PoisonEvent H × Except Unit Unit :=
  if e.poisoned then (e, Except.error ()) else
  if dispatchFaults fails v e.st e.st.keys then
    ({ st := e.st, poisoned := true }, Except.error ())
  else (e, Except.ok ())

/-- Claim C5: an uncontrolled fault raised by a handler during `invoke`
(while the dispatch lock is held) propagates out of `invoke` to its caller
and permanently poisons the shared mutex: every later operation —
`subscribe`, `unsubscribe`, `unsubscribe_all`, `invoke`, `count` — on that
bus fails in turn, and each such failed operation leaves the bus poisoned,
so the failure is permanent.  (Every clone shares the one registry — see
the world model of `clone_shares_registry` — so this disables the bus
through all clones.) -/
theorem handler_fault_poisons_bus (e : PoisonEvent H) (fails : H → Args → Bool)
    (v w : Args) (handler : H) (id : Subscription)
    (hok : e.poisoned = false)
    (hfault : dispatchFaults fails v e.st e.st.keys = true) :
    ((PoisonEvent.invokeP fails e v).2 = Except.error ()) ∧
    ((PoisonEvent.invokeP fails e v).1.poisoned = true) ∧
    (∀ e' : PoisonEvent H, e'.poisoned = true →
      (e'.subscribeP handler).2 = Except.error () ∧
      (e'.subscribeP handler).1.poisoned = true ∧
      (e'.unsubscribeP id).2 = Except.error () ∧
      (e'.unsubscribeP id).1.poisoned = true ∧
      e'.unsubscribeAllP.2 = Except.error () ∧
      e'.unsubscribeAllP.1.poisoned = true ∧
      (PoisonEvent.invokeP fails e' w).2 = Except.error () ∧
      (PoisonEvent.invokeP fails e' w).1.poisoned = true ∧
      e'.countP.2 = Except.error () ∧
      e'.countP.1.poisoned = true) := by
  refine ⟨?_, ?_, ?_⟩
  · simp [PoisonEvent.invokeP, hok, hfault]
  · simp [PoisonEvent.invokeP, hok, hfault]
  · intro e' hp
    simp [PoisonEvent.subscribeP, PoisonEvent.unsubscribeP, PoisonEvent.unsubscribeAllP,
      PoisonEvent.invokeP, PoisonEvent.countP, hp]

/-- Witness for `handler_fault_poisons_bus`: a concrete one-handler bus
whose handler always faults; invoking it returns the error and poisons the
bus, and a subsequent `subscribe` fails. -/
theorem handler_fault_poisons_bus_witness :
    ((PoisonEvent.invokeP (fun _ _ => true) ⟨wReg1, false⟩ 7).2 = Except.error ()) ∧
    ((PoisonEvent.invokeP (fun _ _ => true) ⟨wReg1, false⟩ 7).1.poisoned = true) ∧
    ((PoisonEvent.mk wReg1 true).subscribeP 99).2 = Except.error () := by
  have h := handler_fault_poisons_bus (PoisonEvent.mk wReg1 false) (fun _ _ => true)
    7 7 99 (Subscription.new 0) rfl (by decide)
  exact ⟨h.1, h.2.1, (h.2.2 (PoisonEvent.mk wReg1 true) rfl).1⟩

end BlobEvent
